import Mathlib

/-!
# Verification of the sked reasoning & model-fallback core

A shallow embedding, in Lean 4, of the reasoning and model-management
components of the sked repository:

* `RefusalDetector` (`refusalDetector.ts`): refusal phrase gate and the
  quality gate;
* `ModelManager.generateWithFallback` (`modelManager.ts`): ordered
  fallback over the model catalogue with lazy initialization;
* `OpenReasoner.analyze`, `AdaReasoner.analyze` and
  `ReasoningOrchestrator.combineResults`
  (`lib/reasoning/openReason.ts`, `adaReasoner.ts`, `orchestrator.ts`).

JavaScript strings are modelled as Lean `String` (a list of characters);
the string operations used by the source (`toLowerCase`, `substring`,
`includes`, `trim`, `split`, `join`) are defined below on the character
list, which matches the JavaScript behaviour on the ASCII texts the
source manipulates.  JavaScript numbers are modelled as exact rationals
(`ℚ`).  Asynchronous code has no concurrency that the merged results can
observe, so `analyze` and the fallback loop are modelled as pure
functions; a `throw` is modelled by `Option`/`Except`.
-/

namespace Sked

/-! ## JavaScript string primitives -/

/-- JS `String.prototype.toLowerCase` (ASCII range, which is all the
source's patterns use). -/
def jsToLower (s : String) : String := ⟨s.data.map Char.toLower⟩

/-- JS `s.substring(0, n)`: the first `n` characters. -/
def jsSubstringTo (s : String) (n : Nat) : String := ⟨s.data.take n⟩

/-- JS `s.includes(pat)`: `pat` occurs contiguously in `s`. -/
def strContains (s pat : String) : Bool :=
  (List.range (s.data.length + 1)).any fun i => pat.data.isPrefixOf (s.data.drop i)

/-- Case-insensitive containment, as the source writes
`a.toLowerCase().includes(b.toLowerCase())`. -/
def containsCI (s pat : String) : Bool := strContains (jsToLower s) (jsToLower pat)

/-- JS `String.prototype.trim` (the source only ever trims ASCII
whitespace). -/
def jsTrim (s : String) : String :=
  ⟨((s.data.dropWhile Char.isWhitespace).reverse.dropWhile Char.isWhitespace).reverse⟩

/-- JS `s.split(c)` for a single-character separator, on character lists.
`split` never returns an empty array: splitting the empty string gives
`[[]]`. -/
def splitOnChar (c : Char) : List Char → List (List Char)
  | [] => [[]]
  | x :: xs =>
    match splitOnChar c xs with
    | [] => [[x]]
    | h :: t => if x = c then [] :: h :: t else (x :: h) :: t

/-- JS `parts.join(sep)`. -/
def joinSep (sep : String) : List String → String
  | [] => ""
  | [x] => x
  | x :: xs => x ++ sep ++ joinSep sep xs

/-- JS `s.split('/').pop() || ''`: the basename component of a path. -/
def basenameOf (path : String) : String :=
  String.mk ((splitOnChar '/' path.data).getLastD [])

/-- `[...new Set(l)]`: deduplication keeping the first occurrence of each
element, written as the Set-insertion scan (skip an element already
seen). -/
def jsDedupAcc (seen : List String) : List String → List String
  | [] => []
  | x :: xs => if x ∈ seen then jsDedupAcc seen xs else x :: jsDedupAcc (x :: seen) xs

/-- `[...new Set(l)]` with nothing seen yet. -/
def jsDedup (l : List String) : List String := jsDedupAcc [] l

/-- Deduplication preserving first-seen order, written the way the spec
describes it: fold left, appending each element not yet in the
accumulator.  Proved equal to `jsDedup` below. -/
def firstSeenDedup (l : List String) : List String :=
  l.foldl (fun acc x => if x ∈ acc then acc else acc ++ [x]) []

lemma jsDedupAcc_congr (l : List String) :
    ∀ s₁ s₂ : List String, (∀ y, y ∈ s₁ ↔ y ∈ s₂) →
      jsDedupAcc s₁ l = jsDedupAcc s₂ l := by
  induction l with
  | nil => intro s₁ s₂ _; rfl
  | cons x xs ih =>
    intro s₁ s₂ h
    simp only [jsDedupAcc]
    by_cases hx : x ∈ s₁
    · rw [if_pos hx, if_pos ((h x).mp hx), ih s₁ s₂ h]
    · rw [if_neg hx, if_neg (fun hx₂ => hx ((h x).mpr hx₂))]
      have : ∀ y, y ∈ x :: s₁ ↔ y ∈ x :: s₂ := by
        intro y; simp only [List.mem_cons]; exact or_congr Iff.rfl (h y)
      rw [ih _ _ this]

lemma foldl_dedup_eq (l : List String) :
    ∀ acc : List String,
      l.foldl (fun acc x => if x ∈ acc then acc else acc ++ [x]) acc =
        acc ++ jsDedupAcc acc l := by
  induction l with
  | nil => intro acc; simp [jsDedupAcc]
  | cons x xs ih =>
    intro acc
    simp only [List.foldl_cons, jsDedupAcc]
    by_cases hx : x ∈ acc
    · rw [if_pos hx, if_pos hx, ih]
    · rw [if_neg hx, if_neg hx, ih]
      have : jsDedupAcc (acc ++ [x]) xs = jsDedupAcc (x :: acc) xs := by
        refine jsDedupAcc_congr xs _ _ fun y => ?_
        simp [List.mem_append, List.mem_cons, or_comm]
      rw [this, List.append_assoc]
      rfl

lemma firstSeenDedup_eq_jsDedup (l : List String) : firstSeenDedup l = jsDedup l := by
  unfold firstSeenDedup jsDedup
  simpa using foldl_dedup_eq l []

lemma mem_jsDedupAcc (a : String) (l : List String) :
    ∀ seen : List String, a ∈ jsDedupAcc seen l ↔ a ∈ l ∧ a ∉ seen := by
  induction l with
  | nil => intro seen; simp [jsDedupAcc]
  | cons x xs ih =>
    intro seen
    simp only [jsDedupAcc]
    by_cases hx : x ∈ seen
    · simp only [if_pos hx, ih, List.mem_cons]
      by_cases hax : a = x
      · subst hax; tauto
      · tauto
    · simp only [if_neg hx, List.mem_cons, ih]
      by_cases hax : a = x
      · subst hax; tauto
      · tauto

lemma mem_jsDedup (a : String) (l : List String) : a ∈ jsDedup l ↔ a ∈ l := by
  unfold jsDedup
  rw [mem_jsDedupAcc]
  simp

lemma nodup_jsDedupAcc (l : List String) :
    ∀ seen : List String, (jsDedupAcc seen l).Nodup := by
  induction l with
  | nil => intro seen; simp [jsDedupAcc]
  | cons x xs ih =>
    intro seen
    simp only [jsDedupAcc]
    by_cases hx : x ∈ seen
    · rw [if_pos hx]; exact ih seen
    · rw [if_neg hx]
      refine List.nodup_cons.mpr ⟨?_, ih (x :: seen)⟩
      intro hmem
      exact ((mem_jsDedupAcc x xs (x :: seen)).mp hmem).2 (List.mem_cons_self x seen)

lemma jsSubstringTo_jsToLower (s : String) (n : Nat) :
    jsSubstringTo (jsToLower s) n = jsToLower (jsSubstringTo s n) := by
  simp [jsSubstringTo, jsToLower, List.map_take]

/-! ## RefusalDetector (`refusalDetector.ts`) -/

namespace RefusalDetector

/-- The fixed refusal phrase list of `RefusalDetector.refusalPatterns`. -/
def refusalPatterns : List String :=
  [ "I cannot"
  , "I can't"
  , "I am not able to"
  , "I'm unable to"
  , "I apologize, but"
  , "I'm sorry, but"
  , "As an AI language model"
  , "I cannot assist with"
  , "violates my safety guidelines"
  , "against my programming"
  , "unethical"
  , "illegal"
  , "harmful"
  , "malicious purposes" ]

/-- `RefusalDetector.isRefusal`: lower-case the response, keep the first
100 characters, and scan them for any refusal pattern
(case-insensitively). -/
def isRefusal (response : String) : Bool :=
  let lowerResponse := jsToLower response
  let startOfResponse := jsSubstringTo lowerResponse 100
  refusalPatterns.any fun pat => strContains startOfResponse (jsToLower pat)

/-- `RefusalDetector.isQualityResponse`: reject the empty string and
responses whose trimmed length is below 10. -/
def isQualityResponse (response : String) : Bool :=
  if response = "" ∨ (jsTrim response).length < 10 then false else true

end RefusalDetector

lemma isRefusal_iff (s : String) :
    RefusalDetector.isRefusal s = true ↔
      ∃ p ∈ RefusalDetector.refusalPatterns,
        strContains (jsToLower (jsSubstringTo s 100)) (jsToLower p) = true := by
  unfold RefusalDetector.isRefusal
  rw [List.any_eq_true]
  simp only [jsSubstringTo_jsToLower]

/-- C3: `isRefusal` returns true exactly when a refusal phrase occurs,
case-insensitively, within the first 100 characters; in particular 200
spaces followed by "I cannot help" is not classified as a refusal. -/
theorem isRefusal_prefix_gate :
    (∀ s : String,
      RefusalDetector.isRefusal s = true ↔
        ∃ p ∈ RefusalDetector.refusalPatterns,
          strContains (jsToLower (jsSubstringTo s 100)) (jsToLower p) = true)
    ∧ RefusalDetector.isRefusal
        (String.mk (List.replicate 200 ' ') ++ "I cannot help") = false :=
  ⟨isRefusal_iff, by decide⟩

/-- C4: `isQualityResponse` is false exactly for the empty string or a
response whose whitespace-trimmed length is below 10, and the three
examples of the spec evaluate as stated. -/
theorem isQualityResponse_characterization :
    (∀ s : String,
      RefusalDetector.isQualityResponse s = false ↔
        (s = "" ∨ (jsTrim s).length < 10))
    ∧ RefusalDetector.isQualityResponse "" = false
    ∧ RefusalDetector.isQualityResponse "   " = false
    ∧ RefusalDetector.isQualityResponse "ok, here is the answer" = true := by
  refine ⟨fun s => ?_, by decide, by decide, by decide⟩
  unfold RefusalDetector.isQualityResponse
  by_cases h : s = "" ∨ (jsTrim s).length < 10
  · simp [h]
  · simp [h]

/-- C10: any text whose first 100 characters contain, case-insensitively,
"unethical", "illegal", "harmful" or "malicious purposes" is classified
as a refusal; in particular a legitimate answer beginning "This code is
illegal in some jurisdictions" is classified as a refusal. -/
theorem isRefusal_topic_words :
    (∀ s : String,
      (containsCI (jsSubstringTo s 100) "unethical" = true ∨
       containsCI (jsSubstringTo s 100) "illegal" = true ∨
       containsCI (jsSubstringTo s 100) "harmful" = true ∨
       containsCI (jsSubstringTo s 100) "malicious purposes" = true) →
      RefusalDetector.isRefusal s = true)
    ∧ RefusalDetector.isRefusal "This code is illegal in some jurisdictions" = true := by
  refine ⟨fun s h => ?_, by decide⟩
  rcases h with h | h | h | h
  · exact (isRefusal_iff s).mpr ⟨"unethical", by decide, h⟩
  · exact (isRefusal_iff s).mpr ⟨"illegal", by decide, h⟩
  · exact (isRefusal_iff s).mpr ⟨"harmful", by decide, h⟩
  · exact (isRefusal_iff s).mpr ⟨"malicious purposes", by decide, h⟩

/-- C10 witness: the implication of `isRefusal_topic_words` applied at a
concrete input whose prefix contains "illegal". -/
theorem isRefusal_topic_words_witness :
    RefusalDetector.isRefusal "Selling this is illegal." = true :=
  isRefusal_topic_words.1 "Selling this is illegal." (Or.inr (Or.inl (by decide)))

/-! ## ModelManager (`modelManager.ts`)

`currentEngine`/`currentModelId` are the manager's mutable fields; the
external generation substrate (`CreateMLCEngine` and
`engine.chat.completions.create`) is modelled by a `BackendBehavior`
giving, per model id, whether engine creation succeeds and what the
generation call produces (`none` models a thrown error; the returned
content is the string after the source's `|| ""` defaulting). -/

/-- The fields of a `ModelDefinition` entry of `MODELS` that the fallback
logic reads (`id` keys the engine config, `name` is the display name put
into the returned `modelUsed`). -/
structure ModelDefinition where
  id : String
  name : String
  isUncensored : Bool
deriving DecidableEq

/-- `MODELS.PRIMARY`. -/
def primaryModel : ModelDefinition :=
  ⟨"Qwen2.5-0.5B-Instruct", "Qwen 2.5 0.5B Instruct", false⟩

/-- `MODELS.FALLBACK_1`. -/
def fallback1Model : ModelDefinition :=
  ⟨"Triangle104/qwen2.5-.5b-uncensored-Q8_0-GGUF", "Qwen 2.5 0.5B Uncensored (Q8)", true⟩

/-- `MODELS.FALLBACK_2`. -/
def fallback2Model : ModelDefinition :=
  ⟨"afrideva/llama2_xs_460M_uncensored-GGUF", "Llama2 XS 460M Uncensored", true⟩

/-- The ordered registry `[MODELS.PRIMARY, MODELS.FALLBACK_1,
MODELS.FALLBACK_2]` that `generateWithFallback` iterates. -/
def modelsList : List ModelDefinition := [primaryModel, fallback1Model, fallback2Model]

/-- `ModelResponse` (`models/types.ts`). -/
structure ModelResponse where
  content : String
  modelUsed : String
  isRefusal : Bool
deriving DecidableEq

/-- The manager's mutable state: whether `currentEngine` is non-null, and
`currentModelId`. -/
structure ManagerState where
  hasEngine : Bool
  currentModelId : Option String
deriving DecidableEq

/-- The state of a freshly constructed `ModelManager` (both fields
null). -/
def freshManager : ManagerState := ⟨false, none⟩

/-- The external generation substrate, per model id: does
`CreateMLCEngine` succeed, and what does the engine's chat completion
return (`none` = the call throws; `some c` = it returns content `c` after
the source's `|| ""` defaulting). -/
structure BackendBehavior where
  initOk : String → Bool
  genContent : String → Option String

/-- `ModelManager.initialize(modelId)`: no-op when the engine already
runs that model; otherwise the old engine is dropped and a new one is
created.  Returns the new state and whether the call succeeded (`false`
models the re-thrown `CreateMLCEngine` error: the engine stays null and
`currentModelId` keeps its old value). -/
def initModel (b : BackendBehavior) (st : ManagerState) (modelId : String) :
    ManagerState × Bool :=
  if st.hasEngine = true ∧ st.currentModelId = some modelId then (st, true)
  else if b.initOk modelId then (⟨true, some modelId⟩, true)
  else (⟨false, st.currentModelId⟩, false)

/-- One loop iteration of `generateWithFallback` after the lazy
initialization step: the null-engine guard, the generation call, the
refusal gate and the quality gate.  `none` is a soft failure
(`continue`). -/
def stepGenerate (b : BackendBehavior) (st : ManagerState) (modelDef : ModelDefinition)
    (ini : Bool) : ManagerState × Bool × Option ModelResponse :=
  if st.hasEngine = false then (st, ini, none)
  else
    match b.genContent modelDef.id with
    | none => (st, ini, none)
    | some content =>
      if RefusalDetector.isRefusal content then (st, ini, none)
      else if RefusalDetector.isQualityResponse content = false then (st, ini, none)
      else (st, ini, some ⟨content, modelDef.name, false⟩)

/-- One full iteration of the `for (const modelDef of models)` loop: lazy
initialization when `currentModelId` differs from the candidate, then
`stepGenerate`; every thrown error is caught and turned into a soft
failure.  The middle component records whether `initialize` was
invoked. -/
def fallbackStep (b : BackendBehavior) (st : ManagerState) (modelDef : ModelDefinition) :
    ManagerState × Bool × Option ModelResponse :=
  if st.currentModelId = some modelDef.id then stepGenerate b st modelDef false
  else
    let p := initModel b st modelDef.id
    if p.2 = true then stepGenerate b p.1 modelDef true
    else (p.1, true, none)

/-- The result of running the fallback loop: final manager state, the
candidate ids attempted (one entry per loop iteration, in order), and the
accepted response if any. -/
structure FallbackRun where
  state : ManagerState
  attempts : List String
  accepted : Option ModelResponse
deriving DecidableEq

/-- The `for` loop of `generateWithFallback` over an arbitrary candidate
list: stop at the first accepted response, otherwise continue with the
state the soft failure left behind. -/
def runFallback (b : BackendBehavior) : ManagerState → List ModelDefinition → FallbackRun
  | st, [] => ⟨st, [], none⟩
  | st, m :: ms =>
    match fallbackStep b st m with
    | (st₁, _, some r) => ⟨st₁, [m.id], some r⟩
    | (st₁, _, none) =>
      let rest := runFallback b st₁ ms
      ⟨rest.state, m.id :: rest.attempts, rest.accepted⟩

/-- The terminal error thrown when the loop exhausts all candidates. -/
def allModelsFailedMsg : String := "All models failed or refused to answer."

/-- `generateWithFallback` over an arbitrary registry: the accepted
response, or the single terminal error; paired with the attempted
candidate ids. -/
def generateOver (b : BackendBehavior) (st : ManagerState)
    (registry : List ModelDefinition) : Except String ModelResponse × List String :=
  let run := runFallback b st registry
  (match run.accepted with
   | some r => Except.ok r
   | none => Except.error allModelsFailedMsg,
   run.attempts)

/-- `ModelManager.generateWithFallback`, over the source's fixed
registry. -/
def generateWithFallback (b : BackendBehavior) (st : ManagerState) :
    Except String ModelResponse × List String :=
  generateOver b st modelsList

/-- The generation/gating part of an iteration never mutates the manager
state and passes its init flag through. -/
lemma stepGenerate_state_ini (b : BackendBehavior) (st : ManagerState)
    (m : ModelDefinition) (ini : Bool) :
    (stepGenerate b st m ini).1 = st ∧ (stepGenerate b st m ini).2.1 = ini := by
  unfold stepGenerate
  by_cases he : st.hasEngine = false
  · simp [he]
  · simp only [if_neg he]
    cases b.genContent m.id with
    | none => exact ⟨rfl, rfl⟩
    | some c =>
      cases hr : RefusalDetector.isRefusal c
      · cases hq : RefusalDetector.isQualityResponse c <;> simp [hr, hq]
      · simp [hr]

/-- A backend whose generation call throws, refuses, or fails the quality
gate on whatever it returns. -/
def genFails (b : BackendBehavior) (m : ModelDefinition) : Prop :=
  b.genContent m.id = none ∨
    ∀ c, b.genContent m.id = some c →
      (RefusalDetector.isRefusal c = true ∨ RefusalDetector.isQualityResponse c = false)

/-- A backend that can never produce an accepted response: engine
creation throws, or every generation outcome is rejected. -/
def failsAlways (b : BackendBehavior) (m : ModelDefinition) : Prop :=
  b.initOk m.id = false ∨ genFails b m

lemma stepGenerate_accepted_none (b : BackendBehavior) (m : ModelDefinition)
    (h : genFails b m) (st : ManagerState) (ini : Bool) :
    (stepGenerate b st m ini).2.2 = none := by
  unfold stepGenerate
  by_cases he : st.hasEngine = false
  · simp [he]
  · simp only [if_neg he]
    cases hg : b.genContent m.id with
    | none => rfl
    | some c =>
      rcases h with h | h
      · rw [hg] at h; cases h
      · rcases h c hg with hr | hq
        · simp [hr]
        · cases hr : RefusalDetector.isRefusal c <;> simp [hr, hq]

/-- After one loop iteration, `currentModelId` is unchanged or points at
the candidate just tried. -/
lemma fallbackStep_state_or (b : BackendBehavior) (st : ManagerState)
    (m : ModelDefinition) :
    (fallbackStep b st m).1.currentModelId = st.currentModelId ∨
    (fallbackStep b st m).1.currentModelId = some m.id := by
  unfold fallbackStep
  by_cases h1 : st.currentModelId = some m.id
  · rw [if_pos h1]
    left
    rw [(stepGenerate_state_ini b st m false).1]
  · rw [if_neg h1]
    simp only
    by_cases h2 : (initModel b st m.id).2 = true
    · rw [if_pos h2, (stepGenerate_state_ini b _ m true).1]
      unfold initModel
      by_cases hc : st.hasEngine = true ∧ st.currentModelId = some m.id
      · exact absurd hc.2 h1
      · rw [if_neg hc]
        by_cases hb : b.initOk m.id = true
        · simp [hb]
        · simp [hb]
    · rw [if_neg h2]
      unfold initModel
      by_cases hc : st.hasEngine = true ∧ st.currentModelId = some m.id
      · exact absurd hc.2 h1
      · rw [if_neg hc]
        by_cases hb : b.initOk m.id = true
        · simp [hb]
        · simp [hb]

/-- A candidate that always fails is never accepted, provided the state
does not pretend an engine for a backend whose creation fails. -/
lemma fallbackStep_accepted_none (b : BackendBehavior) (m : ModelDefinition)
    (hfail : failsAlways b m) (st : ManagerState)
    (hgood : b.initOk m.id = false → st.currentModelId ≠ some m.id) :
    (fallbackStep b st m).2.2 = none := by
  unfold fallbackStep
  by_cases h1 : st.currentModelId = some m.id
  · rw [if_pos h1]
    rcases hfail with hio | hg
    · exact absurd h1 (hgood hio)
    · exact stepGenerate_accepted_none b m hg st false
  · rw [if_neg h1]
    simp only
    by_cases h2 : (initModel b st m.id).2 = true
    · rw [if_pos h2]
      have hio : b.initOk m.id = true := by
        unfold initModel at h2
        by_cases hc : st.hasEngine = true ∧ st.currentModelId = some m.id
        · exact absurd hc.2 h1
        · rw [if_neg hc] at h2
          by_cases hb : b.initOk m.id = true
          · exact hb
          · simp [hb] at h2
      rcases hfail with hio2 | hg
      · rw [hio] at hio2; cases hio2
      · exact stepGenerate_accepted_none b m hg _ true
    · rw [if_neg h2]

/-- The fallback loop under backends that all fail: every candidate is
attempted exactly once, in order, and nothing is accepted. -/
lemma runFallback_all_fail (b : BackendBehavior) :
    ∀ (rs : List ModelDefinition) (st : ManagerState),
      (∀ m ∈ rs, failsAlways b m) →
      (∀ m ∈ rs, b.initOk m.id = false → st.currentModelId ≠ some m.id) →
      ((rs.map fun m => m.id).Nodup) →
      (runFallback b st rs).attempts = (rs.map fun m => m.id) ∧
        (runFallback b st rs).accepted = none := by
  intro rs
  induction rs with
  | nil => intro st _ _ _; exact ⟨rfl, rfl⟩
  | cons m ms ih =>
    intro st hfail hgood hnodup
    have hstep : (fallbackStep b st m).2.2 = none :=
      fallbackStep_accepted_none b m (hfail m (List.mem_cons_self m ms)) st
        (hgood m (List.mem_cons_self m ms))
    have hstate := fallbackStep_state_or b st m
    have hn := hnodup
    rw [List.map_cons] at hn
    rcases hfs : fallbackStep b st m with ⟨st₁, ini, acc⟩
    rw [hfs] at hstep hstate
    simp only at hstep hstate
    subst hstep
    have hrest := ih st₁
      (fun m' hm' => hfail m' (List.mem_cons_of_mem m hm'))
      (fun m' hm' hio => by
        rcases hstate with hs | hs
        · rw [hs]; exact hgood m' (List.mem_cons_of_mem m hm') hio
        · rw [hs]
          intro heq
          have hmm : m'.id = m.id := by
            have := Option.some.inj heq
            exact this.symm
          have h1 : m.id ∈ ms.map fun mm => mm.id := by
            rw [← hmm]
            exact List.mem_map_of_mem (fun mm => mm.id) hm'
          have h2 : m.id ∉ ms.map fun mm => mm.id := (List.nodup_cons.mp hn).1
          exact h2 h1)
      ((List.nodup_cons.mp hn).2)
    simp only [runFallback, hfs]
    refine ⟨?_, hrest.2⟩
    simp [hrest.1]

/-- C1 (amended): the fallback loop accepts the first candidate whose
output passes both gates and returns immediately — but the attribution
field carries the candidate's display `name`, not its `id`.  Part 1: an
accepted iteration ends the loop at once, with only that candidate
attempted.  Part 2: the two-backend scenario — BackendA always refuses,
BackendB always succeeds — returns BackendB's content attributed to
BackendB's display name, with BackendA attempted exactly once. -/
theorem generate_first_acceptable_wins :
    (∀ (b : BackendBehavior) (st st₁ : ManagerState) (m : ModelDefinition)
       (ms : List ModelDefinition) (ini : Bool) (r : ModelResponse),
      fallbackStep b st m = (st₁, ini, some r) →
      generateOver b st (m :: ms) = (Except.ok r, [m.id]))
    ∧ (∀ (b : BackendBehavior) (A B : ModelDefinition) (ca cb : String),
      b.initOk A.id = true → b.genContent A.id = some ca →
      RefusalDetector.isRefusal ca = true →
      A.id ≠ B.id →
      b.initOk B.id = true → b.genContent B.id = some cb →
      RefusalDetector.isRefusal cb = false →
      RefusalDetector.isQualityResponse cb = true →
      generateOver b freshManager [A, B] =
        (Except.ok ⟨cb, B.name, false⟩, [A.id, B.id])) := by
  constructor
  · intro b st st₁ m ms ini r h
    simp only [generateOver, runFallback, h]
  · intro b A B ca cb hA1 hA2 hA3 hAB hB1 hB2 hB3 hB4
    simp only [generateOver, runFallback, fallbackStep, stepGenerate, initModel,
      freshManager, hA1, hA2, hA3, hAB, hB1, hB2, hB3, hB4]
    simp [hAB, hB3, hB4]

/-- A behaviour in which the primary model always refuses and every
other model answers well: the scenario of C1's spec sentence over the
repository's real primary and first-fallback model definitions. -/
def refuseThenAnswer : BackendBehavior :=
  ⟨fun _ => true,
   fun id =>
     if id = primaryModel.id then some "I cannot help with that request."
     else some "Here is a detailed walkthrough of the repository code."⟩

/-- C1 counterexample: in the spec's two-backend scenario run over the
real model catalogue entries, the attribution field of the accepted
response is the fallback model's display name, which differs from its
`id` — the claim's `backendUsed = candidate.id` is false on the code. -/
theorem generate_backendUsed_is_name_not_id :
    (generateOver refuseThenAnswer freshManager [primaryModel, fallback1Model]).1 =
      Except.ok ⟨"Here is a detailed walkthrough of the repository code.",
        "Qwen 2.5 0.5B Uncensored (Q8)", false⟩
    ∧ "Qwen 2.5 0.5B Uncensored (Q8)" ≠ fallback1Model.id := by
  exact ⟨rfl, by decide⟩

/-- C1 witness: the amended theorem applied to the concrete scenario. -/
theorem generate_first_acceptable_wins_witness :
    generateOver refuseThenAnswer freshManager [primaryModel, fallback1Model] =
      (Except.ok ⟨"Here is a detailed walkthrough of the repository code.",
        fallback1Model.name, false⟩,
       [primaryModel.id, fallback1Model.id]) :=
  generate_first_acceptable_wins.2 refuseThenAnswer primaryModel fallback1Model
    "I cannot help with that request."
    "Here is a detailed walkthrough of the repository code."
    rfl (by decide) (by decide) (by decide) rfl (by decide) (by decide) (by decide)

/-- C2: if every registered backend fails (initialization throws, the
generation call throws, the output is a refusal, or it fails the quality
gate), `generateWithFallback` attempts each registered backend exactly
once, in order, and ends in the single terminal "all models failed"
error; a candidate's initialization failure is a soft failure: the loop
simply continues with the next candidate and the initialization error is
never the call's outcome. -/
theorem generate_exhausts_all_backends :
    (∀ (b : BackendBehavior) (rs : List ModelDefinition),
      (∀ m ∈ rs, failsAlways b m) →
      ((rs.map fun m => m.id).Nodup) →
      generateOver b freshManager rs =
        (Except.error allModelsFailedMsg, rs.map fun m => m.id))
    ∧ (∀ (b : BackendBehavior) (st : ManagerState) (m : ModelDefinition)
        (ms : List ModelDefinition),
      st.currentModelId ≠ some m.id → b.initOk m.id = false →
      runFallback b st (m :: ms) =
        ⟨(runFallback b ⟨false, st.currentModelId⟩ ms).state,
         m.id :: (runFallback b ⟨false, st.currentModelId⟩ ms).attempts,
         (runFallback b ⟨false, st.currentModelId⟩ ms).accepted⟩) := by
  constructor
  · intro b rs hfail hnodup
    have h := runFallback_all_fail b rs freshManager hfail
      (fun m _ _ => by simp [freshManager]) hnodup
    simp only [generateOver, h.2, h.1]
  · intro b st m ms h hio
    have hstep : fallbackStep b st m = (⟨false, st.currentModelId⟩, true, none) := by
      simp only [fallbackStep, initModel, if_neg h]
      have hc : ¬(st.hasEngine = true ∧ st.currentModelId = some m.id) :=
        fun hc => h hc.2
      simp [hc, hio]
    simp only [runFallback, hstep]

/-- A substrate in which every engine creation throws. -/
def failAllBehavior : BackendBehavior := ⟨fun _ => false, fun _ => none⟩

/-- C2 witness: exhaustion over the real three-model registry with every
initialization failing, plus the soft-failure equation at the primary
model. -/
theorem generate_exhausts_all_backends_witness :
    generateOver failAllBehavior freshManager modelsList =
      (Except.error allModelsFailedMsg, modelsList.map fun m => m.id)
    ∧ runFallback failAllBehavior freshManager [primaryModel, fallback1Model] =
        ⟨(runFallback failAllBehavior ⟨false, none⟩ [fallback1Model]).state,
         primaryModel.id ::
           (runFallback failAllBehavior ⟨false, none⟩ [fallback1Model]).attempts,
         (runFallback failAllBehavior ⟨false, none⟩ [fallback1Model]).accepted⟩ :=
  ⟨generate_exhausts_all_backends.1 failAllBehavior modelsList
      (fun m _ => Or.inl rfl) (by decide),
   generate_exhausts_all_backends.2 failAllBehavior freshManager primaryModel
      [fallback1Model] (by decide) rfl⟩

/-- C8: calling `generateWithFallback` on a never-initialized manager is
not a precondition error.  Part 1: from the fresh state the only error
the call can end in is the terminal exhaustion error (there is no
"not initialized" failure).  Part 2: on the fresh state the loop's first
iteration invokes `initialize` on its candidate — initialization happens
lazily inside the fallback loop. -/
theorem generate_lazy_initialization :
    (∀ (b : BackendBehavior) (rs : List ModelDefinition) (msg : String),
      (generateOver b freshManager rs).1 = Except.error msg →
      msg = allModelsFailedMsg)
    ∧ (∀ (b : BackendBehavior) (m : ModelDefinition),
      (fallbackStep b freshManager m).2.1 = true) := by
  constructor
  · intro b rs msg h
    simp only [generateOver] at h
    cases hacc : (runFallback b freshManager rs).accepted with
    | some r => rw [hacc] at h; cases h
    | none =>
      rw [hacc] at h
      exact (Except.error.inj h).symm
  · intro b m
    have h : freshManager.currentModelId ≠ some m.id := by simp [freshManager]
    simp only [fallbackStep, if_neg h]
    by_cases h2 : (initModel b freshManager m.id).2 = true
    · rw [if_pos h2]
      exact (stepGenerate_state_ini b _ m true).2
    · rw [if_neg h2]

/-- C8 witness: both parts at concrete inputs — a failing substrate over
a one-model registry ends in the exhaustion error, and the first
iteration from the fresh state attempts initialization of the primary
model. -/
theorem generate_lazy_initialization_witness :
    allModelsFailedMsg = allModelsFailedMsg
    ∧ (fallbackStep failAllBehavior freshManager primaryModel).2.1 = true :=
  ⟨generate_lazy_initialization.1 failAllBehavior [primaryModel] allModelsFailedMsg rfl,
   generate_lazy_initialization.2 failAllBehavior primaryModel⟩

/-! ## ModelLoader (`lib/modelLoader.ts`)

The thin wrapper above the manager.  Unlike the manager's fallback loop,
the wrapper's own `generate` does guard on its `initialized` flag; the
lemma below records that guard explicitly, for contrast with the
manager-level lazy initialization proved in `generate_lazy_initialization`. -/

/-- `ModelLoader` state: its `initialized` flag and the wrapped
manager's state. -/
structure LoaderState where
  flag : Bool
  manager : ManagerState

/-- The wrapper's precondition error message. -/
def loaderNotInitializedMsg : String := "Model not initialized. Call initialize() first."

/-- `ModelLoader.generate`: throw when the loader was never successfully
initialized, otherwise delegate to `ModelManager.generateWithFallback`
(an empty attempts list records that no candidate was tried). -/
def loaderGenerate (b : BackendBehavior) (ls : LoaderState) :
    Except String ModelResponse × List String :=
  if ls.flag = false then (Except.error loaderNotInitializedMsg, [])
  else generateWithFallback b ls.manager

/-- The wrapper's guard: a never-initialized `ModelLoader` (not the
manager) fails with its own precondition error before any candidate is
attempted. -/
lemma loaderGenerate_guard (b : BackendBehavior) (ls : LoaderState)
    (h : ls.flag = false) :
    loaderGenerate b ls = (Except.error loaderNotInitializedMsg, []) := by
  simp [loaderGenerate, h]

/-! ## Reasoning data model (`lib/reasoning/types.ts`, `lib/gitParser.ts`) -/

/-- `RepositoryFile.type`: `'file' | 'directory'`. -/
inductive FileType where
  | file
  | directory
deriving DecidableEq

/-- `RepositoryFile` (`gitParser.ts`). -/
structure RepositoryFile where
  path : String
  content : String
  size : Nat
  type : FileType
deriving DecidableEq

/-- `ReasoningContext`.  The source's field `structure` is a Lean keyword,
so it is named `structureStr` here. -/
structure ReasoningContext where
  files : List RepositoryFile
  structureStr : String
  totalFiles : Nat
  totalSize : Nat

/-- `ReasoningResult`. -/
structure ReasoningResult where
  source : String
  insights : List String
  confidence : ℚ
  focusAreas : List String
  suggestedPrompts : Option (List String)

/-- `CombinedReasoning`. -/
structure CombinedReasoning where
  summary : String
  securityConcerns : List String
  architectureInsights : List String
  codeQualityIssues : List String
  aggregatedConfidence : ℚ

/-! ## OpenReasoner (`lib/reasoning/openReason.ts`) -/

/-- The maximum structure depth: `Math.max` over (length of the `^  *`
match, i.e. the leading spaces of the line with 0 for a failed match) / 2
per line of `structure.split('\n')` — the division is JS float division,
so the value can be a half-integer.  The line list is never empty and
every value is nonnegative, so the fold from 0 is `Math.max` of the
spread values. -/
def structureDepth (s : String) : ℚ :=
  (((splitOnChar '\n' s.data).map fun l => ((l.takeWhile fun c => c = ' ').length : ℚ) / 2).foldl
    max 0)

/-- JS number-to-string for the values `structureDepth` produces (their
denominator is 1 or 2: JS prints `2` and `1.5` for them). -/
def qRender (q : ℚ) : String :=
  if q.den = 1 then toString q.num else toString (q.num / 2) ++ ".5"

/-- The always-present structure insight of `OpenReasoner.analyze`. -/
def openStructureInsight (s : String) : String :=
  "Repository structure has a maximum depth of " ++ qRender (structureDepth s) ++ "."

/-- The fixed `keyFiles` list of `OpenReasoner.analyze`. -/
def keyFilesList : List String :=
  ["README.md", "package.json", "requirements.txt", "Dockerfile",
   "docker-compose.yml", "main.py", "index.js", "App.ts"]

/-- `files.filter(f => keyFiles.includes(f))` over the basenames: one
entry per matching file (duplicates possible). -/
def foundKeyFilesOf (context : ReasoningContext) : List String :=
  (context.files.map fun f => basenameOf f.path).filter fun f => keyFilesList.contains f

/-- The per-file security-keyword test of `OpenReasoner.analyze`. -/
def fileHasSecurityKeyword (f : RepositoryFile) : Bool :=
  strContains (jsToLower f.content) "password" ||
  strContains (jsToLower f.content) "secret" ||
  strContains (jsToLower f.content) "api_key" ||
  strContains (jsToLower f.content) "token"

/-- The per-file TODO/FIXME test of `OpenReasoner.analyze`. -/
def fileHasTodoKeyword (f : RepositoryFile) : Bool :=
  strContains (jsToLower f.content) "todo" || strContains (jsToLower f.content) "fixme"

/-- `securityKeywordsFound`: how many files of type `file` contain a
security keyword. -/
def securityKeywordsFoundOf (context : ReasoningContext) : Nat :=
  context.files.countP fun f =>
    if f.type = FileType.file then fileHasSecurityKeyword f else false

/-- `todoFound`: how many files of type `file` contain TODO or FIXME. -/
def todoFoundOf (context : ReasoningContext) : Nat :=
  context.files.countP fun f =>
    if f.type = FileType.file then fileHasTodoKeyword f else false

/-- `question.toLowerCase().includes(pat)` for the source's lower-case
keyword literals. -/
def qHas (question pat : String) : Bool := strContains (jsToLower question) pat

/-- The intent insight of `OpenReasoner.analyze` step 4 (security, then
architecture, then bug-fixing; nothing when no group matches). -/
def openIntentInsights (question : String) : List String :=
  if qHas question "security" || qHas question "vulnerability" || qHas question "exploit" then
    ["User intent is focused on SECURITY. Prioritizing vulnerability scanning."]
  else if qHas question "architecture" || qHas question "design" || qHas question "structure" then
    ["User intent is focused on ARCHITECTURE. Prioritizing structural analysis."]
  else if qHas question "bug" || qHas question "fix" || qHas question "error" then
    ["User intent is focused on BUG FIXING. Prioritizing logic analysis."]
  else []

/-- The focus areas pushed by `OpenReasoner.analyze` step 4. -/
def openIntentFocusAreas (question : String) : List String :=
  if qHas question "security" || qHas question "vulnerability" || qHas question "exploit" then
    ["Vulnerability Assessment", "Exploit Analysis", "Dependency Check"]
  else if qHas question "architecture" || qHas question "design" || qHas question "structure" then
    ["System Design", "Data Flow", "Component Interaction"]
  else if qHas question "bug" || qHas question "fix" || qHas question "error" then
    ["Error Handling", "Logic Flaws", "Debugging"]
  else []

namespace OpenReasoner

/-- `OpenReasoner.analyze`. -/
def analyze (context : ReasoningContext) (question : String) : ReasoningResult :=
  let foundKeyFiles := foundKeyFilesOf context
  let securityKeywordsFound := securityKeywordsFoundOf context
  let todoFound := todoFoundOf context
  { source := "OpenReason"
  , insights :=
      [openStructureInsight context.structureStr]
      ++ (if 0 < foundKeyFiles.length then
            ["Identified key configuration/entry files: " ++
              joinSep ", " foundKeyFiles ++ "."]
          else [])
      ++ (if 0 < securityKeywordsFound then
            ["Found " ++ toString securityKeywordsFound ++
              " potential security-sensitive keywords (password, secret, token)."]
          else [])
      ++ (if 0 < todoFound then
            ["Found " ++ toString todoFound ++
              " TODO/FIXME comments, indicating technical debt."]
          else [])
      ++ openIntentInsights question
  , confidence := 85/100 + (foundKeyFiles.length : ℚ) * (2/100)
  , focusAreas := jsDedup
      ((if 0 < securityKeywordsFound then ["Hardcoded Secrets", "Configuration Files"]
        else [])
       ++ (if 0 < todoFound then ["Code Quality", "Technical Debt"] else [])
       ++ openIntentFocusAreas question)
  , suggestedPrompts := some
      [ "Detailed security audit of " ++ foundKeyFiles.headD "codebase"
      , "Explain the architectural patterns used"
      , "List all found TODOs and their implications" ] }

end OpenReasoner

/-! ## AdaReasoner (`lib/reasoning/adaReasoner.ts`) -/

/-- `f.path.split('.').pop() || 'unknown'`. -/
def extOf (path : String) : String :=
  let e := String.mk ((splitOnChar '.' path.data).getLastD [])
  if e = "" then "unknown" else e

/-- `extensions[ext] = (extensions[ext] || 0) + 1` on an association list
kept in first-encounter order (the iteration order of the source's plain
string-keyed object). -/
def bumpExt (l : List (String × Nat)) (k : String) : List (String × Nat) :=
  if l.any fun p => p.1 == k then
    l.map fun p => if p.1 == k then (p.1, p.2 + 1) else p
  else l ++ [(k, 1)]

/-- The extension tally of `AdaReasoner.analyze` step 1. -/
def extensionCounts (files : List RepositoryFile) : List (String × Nat) :=
  files.foldl (fun acc f => bumpExt acc (extOf f.path)) []

/-- `Object.entries(extensions).sort((a, b) => b[1] - a[1])[0]?.[0]`:
with a stable descending sort this is the first entry of maximal count,
and `none` when there are no files. -/
def dominantLangOf (files : List RepositoryFile) : Option String :=
  ((extensionCounts files).foldl
    (fun best p =>
      match best with
      | none => some p
      | some q => if q.2 < p.2 then some p else some q)
    none).map fun p => p.1

/-- The language-specific (insights, focusAreas) pushed for a dominant
language (empty for unrecognized extensions). -/
def adaLangSpecific (lang : String) : List String × List String :=
  if ["js", "ts", "jsx", "tsx"].contains lang then
    (["Checking for common JS/TS risks (prototype pollution, injection)."],
     ["NPM Dependencies", "Async/Await Usage", "React/Node patterns"])
  else if lang == "py" then
    (["Checking for common Python risks (pickle, eval, input)."],
     ["Pip Dependencies", "Pythonic Idioms", "Type Hinting"])
  else if lang == "rs" then
    (["Rust codebase detected. Focusing on safety guarantees."],
     ["Memory Safety", "Concurrency"])
  else if lang == "go" then
    (["Go codebase detected. Focusing on concurrency patterns."],
     ["Goroutines", "Error Handling"])
  else ([], [])

/-- The size-tier insight of `AdaReasoner.analyze` step 2. -/
def adaSizeInsight (totalFiles : Nat) : String :=
  if 100 < totalFiles then
    "Large repository detected (>100 files). Applying macro-level architectural analysis first."
  else "Small/Medium repository. Applying micro-level code analysis."

/-- The size-tier focus areas of `AdaReasoner.analyze` step 2. -/
def adaSizeFocus (totalFiles : Nat) : List String :=
  if 100 < totalFiles then ["Module Boundaries", "Microservices/Monolith Structure"]
  else ["Function Logic", "Variable Naming", "Code Style"]

/-- The perspective insight of `AdaReasoner.analyze` step 3: performance
engineer on optimize/fast, attacker on hack/secure, maintainer
otherwise. -/
def adaPerspectiveInsight (question : String) : String :=
  if qHas question "optimize" || qHas question "fast" then
    "Perspective: Performance Engineer - Focusing on loops, database queries, and resource usage."
  else if qHas question "hack" || qHas question "secure" then
    "Perspective: Attacker - Looking for entry points, unvalidated inputs, and weak auth."
  else "Perspective: Maintainer - Evaluating code clarity, documentation, and structure."

namespace AdaReasoner

/-- `AdaReasoner.analyze`. -/
def analyze (context : ReasoningContext) (question : String) : ReasoningResult :=
  let langPart : List String × List String :=
    match dominantLangOf context.files with
    | none => ([], [])
    | some lang =>
      (("Dominant language detected: " ++ lang ++ ". Applying " ++ lang ++
          "-specific heuristics.") :: (adaLangSpecific lang).1,
       (adaLangSpecific lang).2)
  { source := "AdaReasoner"
  , insights := langPart.1 ++ [adaSizeInsight context.totalFiles, adaPerspectiveInsight question]
  , confidence := 9/10
  , focusAreas := jsDedup (langPart.2 ++ adaSizeFocus context.totalFiles)
  , suggestedPrompts := none }

end AdaReasoner

/-! ## ReasoningOrchestrator (`lib/reasoning/orchestrator.ts`) -/

/-- `i.toLowerCase().includes(pat)` for the orchestrator's lower-case
bucket keywords. -/
def insightHas (i pat : String) : Bool := strContains (jsToLower i) pat

/-- The `securityConcerns` bucket test. -/
def secTest (i : String) : Bool :=
  insightHas i "security" || insightHas i "vulnerability" || insightHas i "auth"

/-- The `architectureInsights` bucket test. -/
def archTest (i : String) : Bool :=
  insightHas i "architecture" || insightHas i "structure" || insightHas i "flow"

/-- The `codeQualityIssues` bucket test. -/
def cqTest (i : String) : Bool :=
  insightHas i "todo" || insightHas i "technical debt" ||
  insightHas i "readability" || insightHas i "code quality"

/-- `ReasoningOrchestrator.combineResults`. -/
def combineResults (o a : ReasoningResult) : CombinedReasoning :=
  let allInsights := o.insights ++ a.insights
  let uniqueInsights := jsDedup allInsights
  { summary := "Combined analysis from OpenReason and AdaReasoner. Focus: " ++
      joinSep ", " (o.focusAreas ++ a.focusAreas)
  , securityConcerns := uniqueInsights.filter secTest
  , architectureInsights := uniqueInsights.filter archTest
  , codeQualityIssues := uniqueInsights.filter cqTest
  , aggregatedConfidence := (o.confidence + a.confidence) / 2 }

/-- A fixed analyzer-output pair whose first insight lands in two buckets
and whose second lands in none. -/
def bucketExampleO : ReasoningResult :=
  ⟨"OpenReason", ["Auth flow structure", "plain note"], 85/100, [], none⟩

/-- The second fixed analyzer output for the bucket example. -/
def bucketExampleA : ReasoningResult := ⟨"AdaReasoner", [], 9/10, [], none⟩

/-- C5: each bucket of `combineResults` is the classification filter over
the first-seen-order deduplication of analyzer A's insights followed by
analyzer B's; membership in a bucket is equivalent to occurring among the
concatenated insights and containing the bucket's keywords
(case-insensitively); an insight may land in several buckets or in
none. -/
theorem combine_dedup_and_classify :
    (∀ o a : ReasoningResult,
      (combineResults o a).securityConcerns =
        (firstSeenDedup (o.insights ++ a.insights)).filter secTest
      ∧ (combineResults o a).architectureInsights =
        (firstSeenDedup (o.insights ++ a.insights)).filter archTest
      ∧ (combineResults o a).codeQualityIssues =
        (firstSeenDedup (o.insights ++ a.insights)).filter cqTest
      ∧ (firstSeenDedup (o.insights ++ a.insights)).Nodup
      ∧ (∀ i, i ∈ (combineResults o a).securityConcerns ↔
          i ∈ o.insights ++ a.insights ∧ secTest i = true)
      ∧ (∀ i, i ∈ (combineResults o a).architectureInsights ↔
          i ∈ o.insights ++ a.insights ∧ archTest i = true)
      ∧ (∀ i, i ∈ (combineResults o a).codeQualityIssues ↔
          i ∈ o.insights ++ a.insights ∧ cqTest i = true))
    ∧ ("Auth flow structure" ∈ (combineResults bucketExampleO bucketExampleA).securityConcerns
       ∧ "Auth flow structure" ∈
           (combineResults bucketExampleO bucketExampleA).architectureInsights
       ∧ "plain note" ∉ (combineResults bucketExampleO bucketExampleA).securityConcerns
       ∧ "plain note" ∉ (combineResults bucketExampleO bucketExampleA).architectureInsights
       ∧ "plain note" ∉ (combineResults bucketExampleO bucketExampleA).codeQualityIssues) := by
  constructor
  · intro o a
    refine ⟨?_, ?_, ?_, ?_, ?_, ?_, ?_⟩
    · rw [firstSeenDedup_eq_jsDedup]; rfl
    · rw [firstSeenDedup_eq_jsDedup]; rfl
    · rw [firstSeenDedup_eq_jsDedup]; rfl
    · rw [firstSeenDedup_eq_jsDedup]; exact nodup_jsDedupAcc _ []
    · intro i; simp [combineResults, List.mem_filter, mem_jsDedup]
    · intro i; simp [combineResults, List.mem_filter, mem_jsDedup]
    · intro i; simp [combineResults, List.mem_filter, mem_jsDedup]
  · exact ⟨by decide, by decide, by decide, by decide, by decide⟩

/-- C6: `aggregatedConfidence` is the exact arithmetic mean of the two
analyzer confidences, and 0.85 with 0.9 yields exactly 0.875. -/
theorem combine_confidence_mean :
    (∀ o a : ReasoningResult,
      (combineResults o a).aggregatedConfidence = (o.confidence + a.confidence) / 2)
    ∧ (combineResults bucketExampleO bucketExampleA).aggregatedConfidence = 875/1000 := by
  constructor
  · intro o a; rfl
  · norm_num [combineResults, bucketExampleO, bucketExampleA]

/-- A repository context containing one file for each of the eight key
file names. -/
def eightKeyFilesCtx : ReasoningContext :=
  ⟨[⟨"README.md", "", 0, FileType.file⟩, ⟨"package.json", "", 0, FileType.file⟩,
    ⟨"requirements.txt", "", 0, FileType.file⟩, ⟨"Dockerfile", "", 0, FileType.file⟩,
    ⟨"docker-compose.yml", "", 0, FileType.file⟩, ⟨"main.py", "", 0, FileType.file⟩,
    ⟨"index.js", "", 0, FileType.file⟩, ⟨"App.ts", "", 0, FileType.file⟩],
   "", 8, 0⟩

/-- C7 counterexample: on a context with all eight key files present,
OpenReasoner's unclamped confidence is 1.01, outside [0, 1] — the claim's
invariant `confidence ∈ [0,1]` is false on the code. -/
theorem open_confidence_exceeds_one :
    (OpenReasoner.analyze eightKeyFilesCtx "describe").confidence = 101/100
    ∧ ¬((OpenReasoner.analyze eightKeyFilesCtx "describe").confidence ≤ 1) := by
  have hconf : (OpenReasoner.analyze eightKeyFilesCtx "describe").confidence =
      85/100 + ((foundKeyFilesOf eightKeyFilesCtx).length : ℚ) * (2/100) := rfl
  have hlen : (foundKeyFilesOf eightKeyFilesCtx).length = 8 := by decide
  rw [hconf, hlen]
  norm_num

/-- C7 (amended): AdaReasoner's confidence is the constant 0.9 (so always
in [0, 1]); OpenReasoner's is the unclamped 0.85 + 0.02 × (number of key
files found), which is always nonnegative but lies within [0, 1] exactly
when at most 7 key files are found — with 8 or more it exceeds 1. -/
theorem analyzer_confidence_formulas :
    ∀ (context : ReasoningContext) (question : String),
      (AdaReasoner.analyze context question).confidence = 9/10
      ∧ (OpenReasoner.analyze context question).confidence =
          85/100 + ((foundKeyFilesOf context).length : ℚ) * (2/100)
      ∧ (0 : ℚ) ≤ (OpenReasoner.analyze context question).confidence
      ∧ ((OpenReasoner.analyze context question).confidence ≤ 1 ↔
          (foundKeyFilesOf context).length ≤ 7) := by
  intro context question
  have hconf : (OpenReasoner.analyze context question).confidence =
      85/100 + ((foundKeyFilesOf context).length : ℚ) * (2/100) := rfl
  have hk : (0 : ℚ) ≤ ((foundKeyFilesOf context).length : ℚ) := Nat.cast_nonneg _
  refine ⟨rfl, hconf, ?_, ?_⟩
  · rw [hconf]
    have h2 : (0 : ℚ) ≤ ((foundKeyFilesOf context).length : ℚ) * (2/100) :=
      mul_nonneg hk (by norm_num)
    linarith
  · rw [hconf]
    constructor
    · intro h
      by_contra hgt
      push_neg at hgt
      have h8 : (8 : ℚ) ≤ ((foundKeyFilesOf context).length : ℚ) := by
        exact_mod_cast hgt
      linarith
    · intro h
      have h7 : ((foundKeyFilesOf context).length : ℚ) ≤ 7 := by exact_mod_cast h
      linarith

/-- The empty repository context (no files at all). -/
def emptyFilesCtx : ReasoningContext := ⟨[], "", 0, 0⟩

/-- C9 counterexample: on the empty context with an "optimize" question,
AdaReasoner produces the performance-engineer perspective, not the
default maintainer perspective — so the claim's "the default
maintainer-perspective insight is still produced" fails for that
question. -/
theorem ada_perspective_not_default_on_optimize :
    "Perspective: Maintainer - Evaluating code clarity, documentation, and structure."
      ∉ (AdaReasoner.analyze emptyFilesCtx "How can I optimize this repository?").insights := by
  decide

/-- C9 (amended): on any context with an empty file list, both analyzers
return totally (the embedding is a total function) with all file-dependent
insights absent: OpenReasoner yields only the structure-depth insight
plus a possible question-intent insight, and AdaReasoner yields exactly
the small-repository size-tier insight plus exactly one perspective
insight — the maintainer one whenever the question contains none of
optimize/fast/hack/secure. -/
theorem empty_context_insights :
    ∀ (s : String) (n : Nat) (q : String),
      (OpenReasoner.analyze ⟨[], s, 0, n⟩ q).insights =
        openStructureInsight s :: openIntentInsights q
      ∧ (AdaReasoner.analyze ⟨[], s, 0, n⟩ q).insights =
          [adaSizeInsight 0, adaPerspectiveInsight q]
      ∧ adaSizeInsight 0 = "Small/Medium repository. Applying micro-level code analysis."
      ∧ ((qHas q "optimize" || qHas q "fast" || qHas q "hack" || qHas q "secure") = false →
          adaPerspectiveInsight q =
            "Perspective: Maintainer - Evaluating code clarity, documentation, and structure.") := by
  intro s n q
  refine ⟨rfl, rfl, rfl, ?_⟩
  intro h
  simp only [Bool.or_eq_false_iff] at h
  simp [adaPerspectiveInsight, h.1.1.1, h.1.1.2, h.1.2, h.2]

end Sked
